import Mathlib

/-!
Verification model of the PDF question-answering backend
(`backend/main.py`, `backend/utils/pdf_utils.py`,
`backend/utils/text_preprocessing.py`, `backend/utils/dimension_reducer.py`,
`backend/utils/embedding_utils.py`, `backend/utils/pinecone_utils.py`).

The external collaborators (PyPDF2, spaCy, Cohere, Pinecone, sklearn PCA) are
modelled as parameters of the functions that call them; everything the
repository itself computes is translated directly from the Python source.
-/

/-- Model of Python `range(start, stop, step)` restricted to natural
arguments, as used by `PDFProcessor.split_text_into_chunks`
(`for i in range(0, len(words), chunk_size - overlap)`): for a positive
`step` it enumerates `start, start+step, ...` while `< stop`.  The caller
handles `step = 0` (Python raises `ValueError`) before calling; a negative
step from `0` over a non-negative bound yields the empty range and is
handled by the caller as well, so `step = 0` here is unreachable padding. -/
def pyRange (start stop step : Nat) : List Nat :=
  if step = 0 then []
  else if start < stop then start :: pyRange (start + step) stop step
  else []
termination_by stop - start
decreasing_by omega

/-- Accumulator-style model of Python `str.split()` (split on whitespace
runs, dropping empty pieces): `cur` holds the current in-progress word in
reverse order. -/
def pySplitAux : List Char → List Char → List String
  | [], cur => if cur.isEmpty then [] else [String.mk cur.reverse]
  | c :: cs, cur =>
    if c.isWhitespace then
      if cur.isEmpty then pySplitAux cs [] else String.mk cur.reverse :: pySplitAux cs []
    else pySplitAux cs (c :: cur)

/-- Model of Python `str.split()` with no separator argument. -/
def pySplit (s : String) : List String :=
  pySplitAux s.data []

/-- Model of Python `re.sub(r"\s+", " ", text)`: every maximal run of
whitespace becomes a single space.  The flag records whether the previous
character was whitespace (i.e. whether we are inside a run). -/
def collapseWsAux : Bool → List Char → List Char
  | _, [] => []
  | prevWs, c :: cs =>
    if c.isWhitespace then
      if prevWs then collapseWsAux true cs else ' ' :: collapseWsAux true cs
    else c :: collapseWsAux false cs

/-- Collapse whitespace runs to single spaces, as `re.sub(r"\s+", " ", ·)`. -/
def collapseWs (l : List Char) : List Char :=
  collapseWsAux false l

/-- Model of Python `str.strip()`: drop whitespace from both ends. -/
def trimWs (l : List Char) : List Char :=
  (((l.dropWhile Char.isWhitespace).reverse.dropWhile Char.isWhitespace).reverse)

/-- Characters kept by `re.sub(r"[^a-zA-Z0-9\s.,]", "", ·)` in
`PDFProcessor.clean_text`: ASCII letters, digits, whitespace, period, comma. -/
def pdfKeepChar (c : Char) : Bool :=
  c.isAlpha || c.isDigit || c.isWhitespace || c == '.' || c == ','

/-- `PDFProcessor.clean_text` (pdf_utils.py lines 31-48): collapse
whitespace runs to single spaces, then delete every character outside
`[a-zA-Z0-9\s.,]`, then strip both ends. -/
def PDFProcessor.clean_text (text : String) : String :=
  String.mk (trimWs ((collapseWs text.data).filter pdfKeepChar))

/-- Word-index slices produced by the chunking loop: the chunk starting at
word index `i` is `words[i : i+n]`, for `i` drawn from
`range(0, len(words), s)`. -/
def chunkSlices (words : List String) (n s : Nat) : List (List String) :=
  (pyRange 0 words.length s).map (fun i => (words.drop i).take n)

/-- `PDFProcessor.split_text_into_chunks` (pdf_utils.py lines 50-70):
`words = text.split()`, then
`for i in range(0, len(words), chunk_size - overlap): chunks.append(" ".join(words[i:i+chunk_size]))`.
The three branches mirror Python `range` semantics for the step
`chunk_size - overlap`: a zero step raises `ValueError`, a negative step
from `0` gives an empty range (so an empty chunk list is returned with no
error), and a positive step enumerates the window starts. -/
def PDFProcessor.split_text_into_chunks (text : String) (chunk_size : Nat := 500)
    (overlap : Nat := 50) : Except String (List String) :=
  let words := pySplit text
  if chunk_size = overlap then
    .error "ValueError: range() arg 3 must not be zero"
  else if chunk_size < overlap then
    .ok []
  else
    .ok ((chunkSlices words chunk_size (chunk_size - overlap)).map
      (fun ws => String.intercalate " " ws))

/-- Recursive presentation of the chunking loop, used only in proofs:
take an `n`-word window, advance by the stride `s`, repeat until the word
list is exhausted. -/
def chunksRec (n s : Nat) (words : List String) : List (List String) :=
  if words = [] ∨ s = 0 then []
  else words.take n :: chunksRec n s (words.drop s)
termination_by words.length
decreasing_by
  rename_i h
  simp only [not_or] at h
  have : 0 < words.length := List.length_pos.mpr h.1
  simp only [List.length_drop]
  omega

/-- The non-overlapping strides of a chunk list: the first `s` words of
every chunk, followed by the remainder (beyond the first `s` words) of the
final chunk. -/
def strideReassembly (chunks : List (List String)) (s : Nat) : List String :=
  (chunks.map (fun c => c.take s)).flatten ++
    (match chunks.getLast? with
     | none => []
     | some c => c.drop s)

/-- Letters kept by `re.sub(r"[^a-zA-Z\s]", "", ·)` in
`TextPreprocessor.clean_text`: ASCII letters and whitespace only. -/
def prepKeepChar (c : Char) : Bool :=
  c.isAlpha || c.isWhitespace

/-- `TextPreprocessor.clean_text` (text_preprocessing.py lines 19-38):
lowercase, delete every character outside `[a-zA-Z\s]`, collapse whitespace
runs to single spaces, strip both ends.  `Char.toLower` models Python
`str.lower()` on the ASCII alphabet the later filter keeps. -/
def TextPreprocessor.clean_text (text : String) : String :=
  String.mk (trimWs (collapseWs ((text.data.map Char.toLower).filter prepKeepChar)))

/-- Model of the spaCy language model loaded by `TextPreprocessor.__init__`
(an external collaborator): token texts of `nlp(text)`, the per-token
`is_stop` flag, and the per-token `lemma_` attribute, each as a function of
the token text. -/
structure NlpModel where
  tok : String → List String
  isStop : String → Bool
  lemmaOf : String → String

/-- `TextPreprocessor.tokenize`: `[token.text for token in self.nlp(text)]`. -/
def TextPreprocessor.tokenize (m : NlpModel) (text : String) : List String :=
  m.tok text

/-- `TextPreprocessor.remove_stopwords`: re-runs the language model on
`" ".join(tokens)` and keeps the token texts with `is_stop` false. -/
def TextPreprocessor.remove_stopwords (m : NlpModel) (tokens : List String) : List String :=
  (m.tok (String.intercalate " " tokens)).filter (fun t => !m.isStop t)

/-- `TextPreprocessor.lemmatize`: re-runs the language model on
`" ".join(tokens)` and returns each token's `lemma_`. -/
def TextPreprocessor.lemmatize (m : NlpModel) (tokens : List String) : List String :=
  (m.tok (String.intercalate " " tokens)).map m.lemmaOf

/-- `TextPreprocessor.preprocess_pipeline` (text_preprocessing.py lines
149-171): clean, tokenize, remove stopwords, lemmatize, in that order. -/
def TextPreprocessor.preprocess_pipeline (m : NlpModel) (text : String) : List String :=
  TextPreprocessor.lemmatize m
    (TextPreprocessor.remove_stopwords m
      (TextPreprocessor.tokenize m (TextPreprocessor.clean_text text)))

/-- Column count of a matrix represented as a list of rows:
`embeddings.shape[1]` of the numpy array. -/
def numCols (m : List (List Int)) : Nat :=
  (m.headD []).length

/-- `DimensionReducer.reduce_dimensions` (dimension_reducer.py lines 5-29):
clamp `target_dimensions` to `min(target_dimensions, embeddings.shape[1])`,
then delegate to sklearn `PCA(n_components=target).fit_transform`, modelled
by the black-box parameter `pca`. -/
def DimensionReducer.reduce_dimensions (pca : Nat → List (List Int) → List (List Int))
    (embeddings : List (List Int)) (target_dimensions : Nat := 128) : List (List Int) :=
  let target := min target_dimensions (numCols embeddings)
  pca target embeddings

/-- Row-vector dot product, `np.dot` of two equal-length vectors. -/
def dotInt (a b : List Int) : Int :=
  ((a.zip b).map (fun p => p.1 * p.2)).sum

/-- Model of `numpy.ndarray.argsort`: the indices of the list arranged so
that the corresponding values are ascending.  numpy's default quicksort
leaves the order of equal values unspecified; the stable insertion sort
used here is one valid realisation, and nothing proved below depends on
the tie order. -/
def argsort (l : List Int) : List Nat :=
  (List.insertionSort (fun a b : Nat × Int => a.2 ≤ b.2) l.enum).map Prod.fst

/-- Model of the Python slice `l[-k:]` for a natural `k`: the last `k`
elements, except that `-0` is `0` so `k = 0` yields the whole list. -/
def pyTakeLast (l : List α) (k : Nat) : List α :=
  if k = 0 then l else l.drop (l.length - k)

/-- Trace of one `EmbeddingGenerator.similarity_search` call: the text sent
to the embedding provider and the returned indices. -/
structure SearchTrace where
  sentText : String
  result : List Nat
deriving DecidableEq

/-- `EmbeddingGenerator.similarity_search` (embedding_utils.py lines 44-72):
embeds the raw `query` (the `co.embed(texts=[query], ...)` call, modelled by
`embedQ`), computes `np.dot(embedded_docs, query_embedding)`, and returns
`similarities.argsort()[-top_k:][::-1]`. -/
def EmbeddingGenerator.similarity_search (embedQ : String → List Int) (query : String)
    (embedded_docs : List (List Int)) (top_k : Nat := 3) : SearchTrace :=
  let query_embedding := embedQ query
  let similarities := embedded_docs.map (fun d => dotInt d query_embedding)
  { sentText := query
    result := (pyTakeLast (argsort similarities) top_k).reverse }

/-- Trace of one `PineconeVectorStore.upsert_documents` call
(pinecone_utils.py lines 70-116): the preprocessed texts sent to
`generate_embeddings`, the `(str(idx), embedding)` pairs sent to
`index.upsert`, and the returned count `len(vectors)`. -/
structure UpsertTrace where
  sentTexts : List String
  vectors : List (String × List Int)
  count : Nat

/-- `PineconeVectorStore.upsert_documents`: preprocess each document with
`" ".join(preprocess_pipeline(doc))`, embed (`embed` models the Cohere call,
one vector per text in order), optionally reduce dimensions, pair each
embedding with the identifier `str(idx)` from `enumerate`, upsert, and
return `len(vectors)`. -/
def PineconeVectorStore.upsert_documents (m : NlpModel) (embed : String → List Int)
    (pca : Nat → List (List Int) → List (List Int)) (documents : List String)
    (reduce_dims : Bool := false) (target_dimension : Nat := 128) : UpsertTrace :=
  let preprocessed_docs := documents.map
    (fun doc => String.intercalate " " (TextPreprocessor.preprocess_pipeline m doc))
  let embeddings := preprocessed_docs.map embed
  let embeddings2 :=
    if reduce_dims then DimensionReducer.reduce_dimensions pca embeddings target_dimension
    else embeddings
  let vectors := embeddings2.enum.map (fun p => (toString p.1, p.2))
  { sentTexts := preprocessed_docs
    vectors := vectors
    count := vectors.length }

/-- Trace of one `PineconeVectorStore.query_index` call (pinecone_utils.py
lines 118-153): the preprocessed query sent to the embedding provider and
the matches returned by the external `index.query`, modelled by the
black-box parameter `indexQuery`. -/
structure QueryTrace where
  sentText : String
  queryMatches : List (String × Int)

/-- `PineconeVectorStore.query_index`: preprocess the query with
`" ".join(preprocess_pipeline(query))`, embed it, and forward the embedding
to the external index with `top_k` and `include_metadata`. -/
def PineconeVectorStore.query_index (m : NlpModel) (embed : String → List Int)
    (indexQuery : List Int → Nat → Bool → List (String × Int)) (query : String)
    (top_k : Nat := 5) (include_metadata : Bool := false) : QueryTrace :=
  let preprocessed_query := String.intercalate " " (TextPreprocessor.preprocess_pipeline m query)
  let query_embedding := embed preprocessed_query
  { sentText := preprocessed_query
    queryMatches := indexQuery query_embedding top_k include_metadata }

/-- The methods the class `PineconeVectorStore` defines
(pinecone_utils.py): attribute lookup on an instance succeeds exactly for
these names. -/
def PineconeVectorStore.methodNames : List String :=
  ["__init__", "_create_index_if_not_exists", "upsert_documents", "query_index",
   "delete_vectors", "get_index_stats", "list_available_indexes"]

/-- Python attribute lookup on a `PineconeVectorStore` instance: a name not
among the class methods raises `AttributeError` (Python quotation marks in
the message are omitted). -/
def pyGetattr (name : String) : Except String Unit :=
  if name ∈ PineconeVectorStore.methodNames then .ok ()
  else .error ("AttributeError: PineconeVectorStore object has no attribute " ++ name)

/-- An HTTP handler response body `{status, message}`. -/
structure Response where
  status : String
  message : String
deriving DecidableEq

/-- The `POST /upload-pdf/` handler `upload_pdf` (main.py lines 31-71).
External effects are parameters: `extract` is the outcome of saving the
file and running `PDFProcessor.extract_text_from_pdf`, and `store_init` the
outcome of the `PineconeVectorStore()` constructor (Pinecone provisioning).
The handler then cleans, chunks with the defaults `(500, 50)`, and calls
`vector_store.upsert_embeddings(text_chunks)` — an attribute lookup on the
store instance — before returning success; any exception is caught and
turned into `{status: "error", message: f"Error processing PDF: {e}"}`. -/
def Main.upload_pdf (extract : Except String String)
    (store_init : Except String Unit) : Response :=
  match extract with
  | .error e => { status := "error", message := "Error processing PDF: " ++ e }
  | .ok text =>
    let cleaned_text := PDFProcessor.clean_text text
    match PDFProcessor.split_text_into_chunks cleaned_text 500 50 with
    | .error e => { status := "error", message := "Error processing PDF: " ++ e }
    | .ok text_chunks =>
      match store_init with
      | .error e => { status := "error", message := "Error processing PDF: " ++ e }
      | .ok _ =>
        match pyGetattr "upsert_embeddings" with
        | .error e => { status := "error", message := "Error processing PDF: " ++ e }
        | .ok _ =>
          { status := "success"
            message := "PDF processed. " ++ toString text_chunks.length ++ " chunks created." }

/-- Outcome of one `POST /ask-question/` request: the response body plus a
count of the calls made to the embedding provider and to the vector index
while serving it. -/
structure AskOutcome where
  response : Response
  embed_calls : Nat
  index_calls : Nat
deriving DecidableEq

/-- The `POST /ask-question/` handler `ask_question` (main.py lines 73-112):
if the global `current_vector_store` is `None` it returns the no-document
error without touching any external service; otherwise it runs the body of
the `try` block (embedding the question, reading index stats, assembling an
answer), modelled by the black-box continuation `proceed`. -/
def Main.ask_question (current_vector_store : Option Unit) (question : String)
    (proceed : String → AskOutcome) : AskOutcome :=
  match current_vector_store with
  | none =>
    { response := { status := "error"
                    message := "No PDF uploaded. Please upload a PDF first." }
      embed_calls := 0
      index_calls := 0 }
  | some _ => proceed question

theorem pyRange_shift (a b d step : Nat) :
    pyRange (a + b) (a + d) step = (pyRange b d step).map (a + ·) := by
  induction b, d, step using pyRange.induct with
  | case1 b d =>
    conv_lhs => rw [pyRange]
    conv_rhs => rw [pyRange]
    simp
  | case2 b d step h1 h2 ih =>
    conv_lhs => rw [pyRange]
    conv_rhs => rw [pyRange]
    have hlt : a + b < a + d := by omega
    simp only [if_neg h1, if_pos h2, if_pos hlt, List.map_cons]
    rw [Nat.add_assoc]
    rw [ih]
  | case3 b d step h1 h2 =>
    conv_lhs => rw [pyRange]
    conv_rhs => rw [pyRange]
    have hlt : ¬ (a + b < a + d) := by omega
    simp [if_neg h1, if_neg h2, if_neg hlt]

theorem pyRange_shift0 (a d step : Nat) :
    pyRange a (a + d) step = (pyRange 0 d step).map (a + ·) := by
  have h := pyRange_shift a 0 d step
  simpa using h

theorem pyRange_getElem? :
    ∀ (a stop step : Nat), step ≠ 0 → ∀ (j : Nat),
      (pyRange a stop step)[j]? =
        if a + j * step < stop then some (a + j * step) else none := by
  intro a stop step
  induction a, stop, step using pyRange.induct with
  | case1 b d => intro h; exact absurd rfl h
  | case2 b d step h1 h2 ih =>
    intro _ j
    conv_lhs => rw [pyRange]
    simp only [if_neg h1, if_pos h2]
    cases j with
    | zero => simp [h2]
    | succ j =>
      simp only [List.getElem?_cons_succ]
      rw [ih h1 j]
      have he : b + step + j * step = b + (j + 1) * step := by ring
      rw [he]
  | case3 b d step h1 h2 =>
    intro _ j
    conv_lhs => rw [pyRange]
    simp only [if_neg h1, if_neg h2]
    have : ¬ (b + j * step < d) := by omega
    simp [this]

theorem chunksRec_eq_nil_iff (n s : Nat) (hs : s ≠ 0) (words : List String) :
    chunksRec n s words = [] ↔ words = [] := by
  rw [chunksRec]
  split
  · rename_i h
    rcases h with h | h
    · simp [h]
    · exact absurd h hs
  · rename_i h
    simp only [not_or] at h
    simp [h.1]

theorem chunkSlices_eq_chunksRec :
    ∀ (n s : Nat) (words : List String), s ≠ 0 →
      chunkSlices words n s = chunksRec n s words := by
  intro n s words
  refine chunksRec.induct n s
    (fun ws => s ≠ 0 → chunkSlices ws n s = chunksRec n s ws) ?_ ?_ words
  · intro words h hs
    have hw : words = [] := by
      rcases h with h | h
      · exact h
      · exact absurd h hs
    subst hw
    rw [chunksRec]
    simp only [chunkSlices, List.length_nil]
    rw [pyRange]
    simp
  · intro words h ih hs
    simp only [not_or] at h
    obtain ⟨hw, _⟩ := h
    have hlen : 0 < words.length := List.length_pos.mpr hw
    conv_rhs => rw [chunksRec]
    rw [if_neg (by simp [hw, hs])]
    rw [← ih hs]
    simp only [chunkSlices]
    conv_lhs => rw [pyRange]
    simp only [if_neg hs, if_pos hlen, List.map_cons, List.drop_zero, Nat.zero_add]
    congr 1
    by_cases hsl : s ≤ words.length
    · have hd : words.length = s + (words.length - s) := by omega
      rw [hd, pyRange_shift0, List.map_map, List.length_drop]
      apply List.map_congr_left
      intro i _
      simp only [Function.comp_apply, List.drop_drop]
    · have h1 : ¬ (s < words.length) := by omega
      rw [pyRange]
      simp only [if_neg hs, if_neg h1]
      have h2 : (words.drop s).length = 0 := by simp; omega
      rw [h2, pyRange]
      simp [hs]

theorem chunksRec_reassembly :
    ∀ (n s : Nat) (words : List String), s ≠ 0 → s ≤ n →
      strideReassembly (chunksRec n s words) s = words := by
  intro n s words
  refine chunksRec.induct n s
    (fun ws => s ≠ 0 → s ≤ n → strideReassembly (chunksRec n s ws) s = ws) ?_ ?_ words
  · intro words h hs _
    have hw : words = [] := by
      rcases h with h | h
      · exact h
      · exact absurd h hs
    subst hw
    rw [chunksRec]
    simp [strideReassembly]
  · intro words h ih hs hsn
    have ih2 := ih hs hsn
    simp only [not_or] at h
    obtain ⟨hw, _⟩ := h
    conv_lhs => rw [chunksRec]
    rw [if_neg (by simp [hw, hs])]
    rcases hrest : chunksRec n s (words.drop s) with _ | ⟨r, rs⟩
    · have hdrop : words.drop s = [] := (chunksRec_eq_nil_iff n s hs _).mp hrest
      have hle : words.length ≤ s := by
        have := congrArg List.length hdrop
        simp at this
        omega
      simp only [strideReassembly, List.map_cons, List.map_nil, List.flatten_cons,
        List.flatten_nil, List.append_nil, List.getLast?_singleton]
      rw [List.take_append_drop]
      exact List.take_of_length_le (le_trans hle hsn)
    · have htail : strideReassembly (r :: rs) s = words.drop s := by
        rw [← hrest]
        exact ih2
      simp only [strideReassembly, List.map_cons, List.flatten_cons] at htail ⊢
      rw [List.getLast?_cons_cons]
      rw [List.append_assoc]
      rw [htail]
      rw [List.take_take]
      rw [Nat.min_eq_left hsn]
      exact List.take_append_drop s words

theorem split_eq_of_lt (text : String) (n k : Nat) (h : k < n) :
    PDFProcessor.split_text_into_chunks text n k =
      .ok ((chunkSlices (pySplit text) n (n - k)).map (String.intercalate " ")) := by
  unfold PDFProcessor.split_text_into_chunks
  rw [if_neg (by omega), if_neg (by omega)]

/-- C3: the spec demands a `chunk_size > overlap` guard failing with
`ConfigurationError`, but `split_text_into_chunks` has no guard at all: with
`chunk_size = 2, overlap = 3` (negative stride) it silently returns an empty
chunk list and no error, and with `chunk_size = overlap = 2` (zero stride)
Python `range` raises a generic `ValueError`, not a `ConfigurationError`
(no such class exists anywhere in the repository). -/
theorem C3_no_overlap_guard :
    PDFProcessor.split_text_into_chunks "a b c d" 2 3 = .ok [] ∧
    PDFProcessor.split_text_into_chunks "a b c d" 2 2 =
      .error "ValueError: range() arg 3 must not be zero" := by
  constructor
  · rfl
  · rfl

/-- C4: for `overlap < chunk_size`, `split_text_into_chunks` returns exactly
the space-joined slices `words[i : i+chunk_size]` for the window starts
`i = 0, chunk_size-overlap, 2*(chunk_size-overlap), ...` while
`i < len(words)`; every chunk has at most `chunk_size` words, and the `j`-th
window start is exactly `j * (chunk_size - overlap)`, so consecutive chunks
start exactly `chunk_size - overlap` words apart. -/
theorem C4_split_chunk_windows (text : String) (n k : Nat) (h : k < n) :
    PDFProcessor.split_text_into_chunks text n k =
      .ok ((chunkSlices (pySplit text) n (n - k)).map (String.intercalate " ")) ∧
    (∀ c ∈ chunkSlices (pySplit text) n (n - k), c.length ≤ n) ∧
    (∀ j : Nat, (pyRange 0 (pySplit text).length (n - k))[j]? =
      if j * (n - k) < (pySplit text).length then some (j * (n - k)) else none) := by
  refine ⟨split_eq_of_lt text n k h, ?_, ?_⟩
  · intro c hc
    simp only [chunkSlices, List.mem_map] at hc
    obtain ⟨i, _, rfl⟩ := hc
    exact List.length_take_le _ _
  · intro j
    have hj := pyRange_getElem? 0 (pySplit text).length (n - k) (by omega) j
    simpa using hj

/-- Witness for C4 at the spec's example: chunking `"a b c d e f"` with
`chunk_size = 4, overlap = 1` yields `["a b c d", "d e f"]`. -/
theorem C4_split_chunk_windows_witness :
    1 < 4 ∧ PDFProcessor.split_text_into_chunks "a b c d e f" 4 1 =
      .ok ["a b c d", "d e f"] := by
  refine ⟨by decide, ?_⟩
  have h := (C4_split_chunk_windows "a b c d e f" 4 1 (by decide)).1
  rw [h]
  have hw : pySplit "a b c d e f" = ["a", "b", "c", "d", "e", "f"] := rfl
  have hr : pyRange 0 6 3 = [0, 3] := by
    rw [pyRange, pyRange, pyRange]
    simp
  simp only [chunkSlices, hw]
  norm_num [hr]
  constructor
  · rfl
  · rfl

/-- C9: for `overlap < chunk_size`, concatenating the non-overlapping
strides of the produced chunks (the first `chunk_size - overlap` words of
each chunk, plus the remainder of the final chunk) reconstructs exactly the
whitespace-split word sequence of the input text. -/
theorem C9_strides_reassemble (text : String) (n k : Nat) (h : k < n) :
    PDFProcessor.split_text_into_chunks text n k =
      .ok ((chunkSlices (pySplit text) n (n - k)).map (String.intercalate " ")) ∧
    strideReassembly (chunkSlices (pySplit text) n (n - k)) (n - k) = pySplit text := by
  refine ⟨split_eq_of_lt text n k h, ?_⟩
  rw [chunkSlices_eq_chunksRec n (n - k) (pySplit text) (by omega)]
  exact chunksRec_reassembly n (n - k) (pySplit text) (by omega) (by omega)

/-- Witness for C9 at `"a b c d e f"`, `chunk_size = 4`, `overlap = 1`. -/
theorem C9_strides_reassemble_witness :
    1 < 4 ∧ strideReassembly (chunkSlices (pySplit "a b c d e f") 4 3) 3 =
      pySplit "a b c d e f" :=
  ⟨by decide, (C9_strides_reassemble "a b c d e f" 4 1 (by decide)).2⟩
theorem mem_collapseWsAux {c : Char} :
    ∀ (b : Bool) (l : List Char), c ∈ collapseWsAux b l →
      (c ∈ l ∧ c.isWhitespace = false) ∨ c = ' ' := by
  intro b l
  induction l generalizing b with
  | nil => intro h; simp [collapseWsAux] at h
  | cons x xs ih =>
    intro h
    simp only [collapseWsAux] at h
    by_cases hx : x.isWhitespace
    · rw [if_pos hx] at h
      rcases b with _ | _
      · rw [if_neg (by simp)] at h
        rcases List.mem_cons.mp h with h | h
        · exact Or.inr h
        · rcases ih true h with ⟨h1, h2⟩ | h1
          · exact Or.inl ⟨List.mem_cons_of_mem _ h1, h2⟩
          · exact Or.inr h1
      · rw [if_pos rfl] at h
        rcases ih true h with ⟨h1, h2⟩ | h1
        · exact Or.inl ⟨List.mem_cons_of_mem _ h1, h2⟩
        · exact Or.inr h1
    · rw [if_neg hx] at h
      rcases List.mem_cons.mp h with h | h
      · subst h
        exact Or.inl ⟨List.mem_cons_self _ _, by simpa using hx⟩
      · rcases ih false h with ⟨h1, h2⟩ | h1
        · exact Or.inl ⟨List.mem_cons_of_mem _ h1, h2⟩
        · exact Or.inr h1

theorem filter_collapseWsAux {p : Char → Bool}
    (hp : ∀ c : Char, c.isWhitespace = true → p c = false) :
    ∀ (b : Bool) (l : List Char), (collapseWsAux b l).filter p = l.filter p := by
  intro b l
  induction l generalizing b with
  | nil => simp [collapseWsAux]
  | cons x xs ih =>
    simp only [collapseWsAux]
    by_cases hx : x.isWhitespace
    · rw [if_pos hx]
      have hpx : p x = false := hp x hx
      have hsp : p ' ' = false := hp ' ' (by decide)
      rcases b with _ | _
      · rw [if_neg (by simp)]
        simp [List.filter_cons, hsp, hpx, ih]
      · rw [if_pos rfl]
        simp [List.filter_cons, hpx, ih]
    · rw [if_neg hx]
      simp [List.filter_cons, ih]

theorem mem_trimWs {c : Char} {l : List Char} (h : c ∈ trimWs l) : c ∈ l := by
  simp only [trimWs, List.mem_reverse] at h
  have h1 := List.dropWhile_sublist (l := (l.dropWhile Char.isWhitespace).reverse)
    (p := Char.isWhitespace)
  have h2 := h1.subset h
  rw [List.mem_reverse] at h2
  exact (List.dropWhile_sublist _).subset h2

theorem filter_trimWs {p : Char → Bool}
    (hp : ∀ c : Char, c.isWhitespace = true → p c = false) (l : List Char) :
    (trimWs l).filter p = l.filter p := by
  have key : ∀ m : List Char, (m.dropWhile Char.isWhitespace).filter p = m.filter p := by
    intro m
    conv_rhs => rw [← List.takeWhile_append_dropWhile (p := Char.isWhitespace) (l := m)]
    rw [List.filter_append]
    have : (m.takeWhile Char.isWhitespace).filter p = [] := by
      rw [List.filter_eq_nil_iff]
      intro a ha
      simp [hp a (List.mem_takeWhile_imp ha)]
    rw [this, List.nil_append]
  simp only [trimWs]
  rw [List.filter_reverse, key, List.filter_reverse, key]
  simp

theorem head?_trimWs (l : List Char) :
    (trimWs l).head?.all (fun c => !c.isWhitespace) = true := by
  simp only [trimWs, List.head?_reverse]
  set m := l.dropWhile Char.isWhitespace with hm
  rcases hd : m.reverse.dropWhile Char.isWhitespace with _ | ⟨x, xs⟩
  · simp [hd]
  · have hne : m.reverse.dropWhile Char.isWhitespace ≠ [] := by rw [hd]; simp
    have heq : (m.reverse.dropWhile Char.isWhitespace).getLast? = m.reverse.getLast? := by
      conv_rhs => rw [← List.takeWhile_append_dropWhile (p := Char.isWhitespace) (l := m.reverse)]
      rw [List.getLast?_append_of_ne_nil _ hne]
    rw [← hd, heq, List.getLast?_reverse]
    have h := List.head?_dropWhile_not Char.isWhitespace l
    rw [← hm] at h
    rcases hh : m.head? with _ | c
    · simp [hh]
    · rw [hh] at h
      simp [hh, h]

theorem getLast?_trimWs (l : List Char) :
    (trimWs l).getLast?.all (fun c => !c.isWhitespace) = true := by
  simp only [trimWs, List.getLast?_reverse]
  have h := List.head?_dropWhile_not Char.isWhitespace (l.dropWhile Char.isWhitespace).reverse
  rcases hh : ((l.dropWhile Char.isWhitespace).reverse.dropWhile Char.isWhitespace).head?
    with _ | c
  · simp [hh]
  · rw [hh] at h
    simp [hh, h]

/-- The character set the spec claims for `PDFProcessor.clean_text` output:
ASCII letters, digits, period, comma, space. -/
def pdfCleanChar (c : Char) : Bool :=
  c.isAlpha || c.isDigit || c == '.' || c == ',' || c == ' '

/-- Digits and the punctuation preserved by `PDFProcessor.clean_text`. -/
def pdfPunct (c : Char) : Bool :=
  c.isDigit || c == '.' || c == ','

/-- A character list with no whitespace at either end. -/
def noEdgeWs (l : List Char) : Bool :=
  l.head?.all (fun c => !c.isWhitespace) && l.getLast?.all (fun c => !c.isWhitespace)

theorem ws_not_pdfPunct (c : Char) (h : c.isWhitespace = true) : pdfPunct c = false := by
  have h2 : c = ' ' ∨ c = '\t' ∨ c = '\r' ∨ c = '\n' := by
    simpa [Char.isWhitespace, or_assoc] using h
  rcases h2 with rfl | rfl | rfl | rfl <;> decide

/-- C10 (amended): `PDFProcessor.clean_text` returns only ASCII letters,
digits, periods, commas and spaces with no leading or trailing whitespace,
and it preserves digits, periods and commas exactly (in order) — unlike
`TextPreprocessor.clean_text`, whose output is ASCII letters and spaces
only.  Spaces in the output need not be single: see the counterexample. -/
theorem C10_pdf_clean_charset (s : String) :
    (PDFProcessor.clean_text s).data.all pdfCleanChar = true ∧
    noEdgeWs (PDFProcessor.clean_text s).data = true ∧
    (PDFProcessor.clean_text s).data.filter pdfPunct = s.data.filter pdfPunct ∧
    (TextPreprocessor.clean_text s).data.all (fun c => c.isAlpha || c == ' ') = true := by
  refine ⟨?_, ?_, ?_, ?_⟩
  · rw [List.all_eq_true]
    intro c hc
    have h1 := mem_trimWs hc
    rw [List.mem_filter] at h1
    obtain ⟨h2, h3⟩ := h1
    rw [collapseWs] at h2
    rcases mem_collapseWsAux false _ h2 with ⟨_, hws⟩ | rfl
    · simp [pdfKeepChar, hws] at h3
      simp [pdfCleanChar]
      tauto
    · decide
  · simp only [noEdgeWs, Bool.and_eq_true]
    exact ⟨head?_trimWs _, getLast?_trimWs _⟩
  · show (trimWs ((collapseWs s.data).filter pdfKeepChar)).filter pdfPunct =
      s.data.filter pdfPunct
    rw [filter_trimWs ws_not_pdfPunct, List.filter_filter]
    have hcg : ∀ a ∈ collapseWs s.data, (pdfPunct a && pdfKeepChar a) = pdfPunct a := by
      intro a _
      cases hp : pdfPunct a
      · simp
      · have hk : pdfKeepChar a = true := by
          simp [pdfPunct] at hp
          simp [pdfKeepChar]
          tauto
        simp [hk]
    rw [List.filter_congr hcg]
    rw [collapseWs]
    rw [filter_collapseWsAux ws_not_pdfPunct]
  · rw [List.all_eq_true]
    intro c hc
    have h1 := mem_trimWs hc
    rw [collapseWs] at h1
    rcases mem_collapseWsAux false _ h1 with ⟨h2, hws⟩ | rfl
    · rw [List.mem_filter] at h2
      have h3 := h2.2
      simp [prepKeepChar, hws] at h3
      simp [h3]
    · decide

/-- Counterexample to C10 as stated: cleaning collapses whitespace before
deleting special characters, so deleting `@` from `"a @ b"` leaves two
adjacent spaces — the output is not single-spaced. -/
theorem C10_double_space_counterexample :
    PDFProcessor.clean_text "a @ b" = "a  b" ∧
    (PDFProcessor.clean_text "a @ b").data = ['a', ' ', ' ', 'b'] := by
  constructor
  · rfl
  · rfl

/-- A neutral instantiation of the external spaCy model, used to evaluate
the pipeline on concrete inputs: whitespace tokenization, no stopwords,
identity lemmas.  (Inequalities exhibited with it are forced by the
repository's own `clean_text` lowercasing, not by this choice.) -/
def plainNlp : NlpModel :=
  { tok := pySplit, isStop := fun _ => false, lemmaOf := id }

/-- Counterexample to C2 as stated: the document-upsert operation embeds the
preprocessed string (here `"the cat"` for the document `"The Cat"`), while
the question operation actually used by `POST /ask-question/`
(`EmbeddingGenerator.similarity_search`) embeds the raw question text
unchanged, so the two paths do not embed the same string for the same
text. -/
theorem C2_raw_query_counterexample :
    (PineconeVectorStore.upsert_documents plainNlp (fun _ => []) (fun _ x => x)
      ["The Cat"] false 128).sentTexts = ["the cat"] ∧
    (EmbeddingGenerator.similarity_search (fun _ => []) "The Cat" [] 3).sentText = "The Cat" ∧
    ("the cat" : String) ≠ "The Cat" := by
  refine ⟨?_, rfl, by decide⟩
  rfl

/-- C2 (amended): within `PineconeVectorStore`, ingestion
(`upsert_documents`) and query (`query_index`) embed the identical
preprocessed string for the same text; but the question path that
`POST /ask-question/` actually uses (`EmbeddingGenerator.similarity_search`)
embeds the raw question with no preprocessing at all. -/
theorem C2_pipeline_symmetry (m : NlpModel) (embed : String → List Int)
    (pca : Nat → List (List Int) → List (List Int))
    (indexQuery : List Int → Nat → Bool → List (String × Int))
    (docs : List String) (k : Nat) (im : Bool) (rd : Bool) (td : Nat) :
    (PineconeVectorStore.upsert_documents m embed pca docs rd td).sentTexts =
      docs.map (fun d => (PineconeVectorStore.query_index m embed indexQuery d k im).sentText) ∧
    ∀ (q : String) (edocs : List (List Int)) (tk : Nat),
      (EmbeddingGenerator.similarity_search embed q edocs tk).sentText = q := by
  constructor
  · rfl
  · intro q edocs tk
    rfl

/-- C5: asking a question while the current-store slot is empty returns the
no-document error response and performs zero embedding-provider calls and
zero index calls, whatever the rest of the handler would have done. -/
theorem C5_no_document_guard (q : String) (proceed : String → AskOutcome) :
    Main.ask_question none q proceed =
      { response := { status := "error"
                      message := "No PDF uploaded. Please upload a PDF first." }
        embed_calls := 0
        index_calls := 0 } :=
  rfl

/-- C6: `reduce_dimensions` clamps the target to
`min(target_dimensions, embeddings.shape[1])` before fitting, so given the
PCA contract (an `[n, k]` output for `n_components = k`), the result is an
`[n, min(target, d)]` matrix. -/
theorem C6_reduce_clamps (pca : Nat → List (List Int) → List (List Int))
    (embeddings : List (List Int)) (target : Nat)
    (hpca : ∀ (k : Nat) (X : List (List Int)),
      (pca k X).length = X.length ∧ ∀ r ∈ pca k X, r.length = k) :
    (DimensionReducer.reduce_dimensions pca embeddings target).length = embeddings.length ∧
    ∀ r ∈ DimensionReducer.reduce_dimensions pca embeddings target,
      r.length = min target (numCols embeddings) := by
  unfold DimensionReducer.reduce_dimensions
  exact hpca _ _

/-- A concrete shape-respecting PCA stand-in for the witness. -/
def padPca (k : Nat) (X : List (List Int)) : List (List Int) :=
  X.map (fun _ => List.replicate k 0)

/-- Witness for C6 at the spec's example: 50 vectors of dimension 100 with
`target_dim = 1000` come back as 50 vectors of dimension 100, not 1000. -/
theorem C6_reduce_clamps_witness :
    (∀ (k : Nat) (X : List (List Int)),
      (padPca k X).length = X.length ∧ ∀ r ∈ padPca k X, r.length = k) ∧
    (DimensionReducer.reduce_dimensions padPca
      (List.replicate 50 (List.replicate 100 0)) 1000).length = 50 ∧
    ∀ r ∈ DimensionReducer.reduce_dimensions padPca
      (List.replicate 50 (List.replicate 100 0)) 1000, r.length = 100 := by
  have hpca : ∀ (k : Nat) (X : List (List Int)),
      (padPca k X).length = X.length ∧ ∀ r ∈ padPca k X, r.length = k := by
    intro k X
    constructor
    · simp [padPca]
    · intro r hr
      simp only [padPca, List.mem_map] at hr
      obtain ⟨a, _, rfl⟩ := hr
      simp
  have h := C6_reduce_clamps padPca (List.replicate 50 (List.replicate 100 0)) 1000 hpca
  have hnc : numCols (List.replicate 50 (List.replicate 100 (0 : Int))) = 100 := rfl
  rw [hnc] at h
  norm_num at h
  exact ⟨hpca, h.1, h.2⟩

/-- C7: `upsert_documents` assigns the `i`-th vector the external identifier
`str(i)` (0-based, in chunk order — `enumerate` over the order-preserving
preprocessing and embedding maps) and returns a count equal to the number of
input chunks, provided the black-box PCA preserves the row count when
reduction is enabled. -/
theorem C7_upsert_sequential_ids (m : NlpModel) (embed : String → List Int)
    (pca : Nat → List (List Int) → List (List Int)) (docs : List String)
    (rd : Bool) (td : Nat)
    (hpca : ∀ (k : Nat) (X : List (List Int)), (pca k X).length = X.length) :
    (PineconeVectorStore.upsert_documents m embed pca docs rd td).count = docs.length ∧
    (PineconeVectorStore.upsert_documents m embed pca docs rd td).vectors.map Prod.fst =
      (List.range docs.length).map toString := by
  unfold PineconeVectorStore.upsert_documents
  simp only []
  have hlen : ∀ X : List (List Int),
      (if rd then DimensionReducer.reduce_dimensions pca X td else X).length = X.length := by
    intro X
    cases rd
    · simp
    · simp [DimensionReducer.reduce_dimensions, hpca]
  constructor
  · simp [hlen]
  · rw [List.map_map]
    have : (Prod.fst ∘ fun p : Nat × List Int => (toString p.1, p.2)) =
        (toString ∘ Prod.fst) := rfl
    rw [this, ← List.map_map, List.enum_map_fst, hlen]
    simp

/-- Witness for C7 with three chunks and reduction enabled. -/
theorem C7_upsert_sequential_ids_witness :
    (∀ (k : Nat) (X : List (List Int)), ((fun (_ : Nat) (X : List (List Int)) => X) k X).length = X.length) ∧
    (PineconeVectorStore.upsert_documents plainNlp (fun _ => [1])
      (fun _ X => X) ["a", "b", "c"] true 2).count = 3 ∧
    (PineconeVectorStore.upsert_documents plainNlp (fun _ => [1])
      (fun _ X => X) ["a", "b", "c"] true 2).vectors.map Prod.fst =
      (List.range 3).map toString := by
  have h := C7_upsert_sequential_ids plainNlp (fun _ => [1]) (fun _ X => X)
    ["a", "b", "c"] true 2 (fun _ _ => rfl)
  exact ⟨fun _ _ => rfl, h.1, h.2⟩

theorem pyRange_0_2_450 : pyRange 0 2 450 = [0] := by
  rw [pyRange, pyRange]
  norm_num

/-- C1: main.py line 53 calls `vector_store.upsert_embeddings(text_chunks)`,
but `PineconeVectorStore` defines no method of that name (pinecone_utils.py
defines `upsert_documents`), so attribute lookup raises `AttributeError`,
the handler's `except` catches it, and every upload — including one whose
extraction, cleaning and chunking all succeed and whose store initializes
fine — returns status `"error"`; the success branch is unreachable. -/
theorem C1_upload_always_error :
    (∀ (extract : Except String String) (store_init : Except String Unit),
      (Main.upload_pdf extract store_init).status = "error") ∧
    Main.upload_pdf (.ok "hello world") (.ok ()) =
      { status := "error"
        message := "Error processing PDF: AttributeError: PineconeVectorStore object has no attribute upsert_embeddings" } := by
  constructor
  · intro extract store_init
    rcases extract with e | text
    · rfl
    · rcases h : PDFProcessor.split_text_into_chunks (PDFProcessor.clean_text text) 500 50
        with e | chunks
      · simp [Main.upload_pdf, h]
      · rcases store_init with e | u
        · simp [Main.upload_pdf, h]
        · simp only [Main.upload_pdf, h]
          rfl
  · have h1 : pySplit (PDFProcessor.clean_text "hello world") = ["hello", "world"] := rfl
    have hc : PDFProcessor.split_text_into_chunks (PDFProcessor.clean_text "hello world")
        500 50 = .ok ["hello world"] := by
      unfold PDFProcessor.split_text_into_chunks
      rw [h1]
      norm_num
      rw [chunkSlices]
      rw [show (["hello", "world"] : List String).length = 2 from rfl, pyRange_0_2_450]
      rfl
    simp [Main.upload_pdf, hc]
    rfl

theorem argsort_length (l : List Int) : (argsort l).length = l.length := by
  simp [argsort]

theorem argsort_facts (sims : List Int) :
    (argsort sims).Pairwise (fun i j => sims.getD i 0 ≤ sims.getD j 0) ∧
    ∀ i ∈ argsort sims, i < sims.length := by
  haveI hT : IsTotal (Nat × Int) (fun a b : Nat × Int => a.2 ≤ b.2) :=
    ⟨fun a b => Int.le_total a.2 b.2⟩
  haveI hTr : IsTrans (Nat × Int) (fun a b : Nat × Int => a.2 ≤ b.2) :=
    ⟨fun _ _ _ h1 h2 => le_trans h1 h2⟩
  have hsorted := List.sorted_insertionSort (fun a b : Nat × Int => a.2 ≤ b.2) sims.enum
  have hperm := List.perm_insertionSort (fun a b : Nat × Int => a.2 ≤ b.2) sims.enum
  have hmem : ∀ p ∈ List.insertionSort (fun a b : Nat × Int => a.2 ≤ b.2) sims.enum,
      sims.getD p.1 0 = p.2 ∧ p.1 < sims.length := by
    intro p hp
    have h1 : p ∈ sims.enum := hperm.mem_iff.mp hp
    have h2 := List.mem_enum_iff_getElem?.mp h1
    constructor
    · rw [List.getD_eq_getElem?_getD, h2]
      rfl
    · rcases List.getElem?_eq_some.mp h2 with ⟨h3, _⟩
      exact h3
  constructor
  · rw [argsort, List.pairwise_map]
    refine List.Pairwise.imp_of_mem ?_ hsorted
    intro a b ha hb hr
    rw [(hmem a ha).1, (hmem b hb).1]
    exact hr
  · intro i hi
    rw [argsort, List.mem_map] at hi
    obtain ⟨p, hp, rfl⟩ := hi
    exact (hmem p hp).2

/-- C8 (amended): for `top_k ≥ 1` the similarity fallback returns at most
`top_k` document indices, each a valid index into `embedded_docs`, ordered
by descending dot-product similarity against the query embedding.  (For
`top_k = 0` the Python slice `[-0:]` returns every index: see the
counterexample.) -/
theorem C8_similarity_ranking (embedQ : String → List Int) (q : String)
    (docs : List (List Int)) (k : Nat) (hk : 1 ≤ k) :
    (EmbeddingGenerator.similarity_search embedQ q docs k).result.length ≤ k ∧
    (EmbeddingGenerator.similarity_search embedQ q docs k).result.Pairwise
      (fun i j => (docs.map (fun d => dotInt d (embedQ q))).getD j 0 ≤
        (docs.map (fun d => dotInt d (embedQ q))).getD i 0) ∧
    ∀ i ∈ (EmbeddingGenerator.similarity_search embedQ q docs k).result,
      i < docs.length := by
  set sims := docs.map (fun d => dotInt d (embedQ q)) with hsims
  have hres : (EmbeddingGenerator.similarity_search embedQ q docs k).result =
      (pyTakeLast (argsort sims) k).reverse := rfl
  have hfacts := argsort_facts sims
  have hsub : (pyTakeLast (argsort sims) k).Sublist (argsort sims) := by
    rw [pyTakeLast, if_neg (by omega)]
    exact List.drop_sublist _ _
  refine ⟨?_, ?_, ?_⟩
  · rw [hres, List.length_reverse, pyTakeLast, if_neg (by omega), List.length_drop]
    have := argsort_length sims
    omega
  · rw [hres, List.pairwise_reverse]
    exact List.Pairwise.sublist hsub hfacts.1
  · intro i hi
    rw [hres, List.mem_reverse] at hi
    have h2 := hsub.subset hi
    have h3 := hfacts.2 i h2
    rw [hsims, List.length_map] at h3
    exact h3

/-- Counterexample to C8 as stated: with `top_k = 0` the slice
`argsort()[-0:]` is the whole array, so the call returns all document
indices — more than `top_k`. -/
theorem C8_topk_zero_counterexample :
    (EmbeddingGenerator.similarity_search (fun _ => [1]) "q" [[1], [2]] 0).result = [1, 0] ∧
    ¬ ((EmbeddingGenerator.similarity_search (fun _ => [1]) "q" [[1], [2]] 0).result.length ≤ 0) := by
  constructor
  · rfl
  · decide

/-- Witness for C8 at `top_k = 1` over two documents. -/
theorem C8_similarity_ranking_witness :
    1 ≤ 1 ∧
    ((EmbeddingGenerator.similarity_search (fun _ => [2]) "q" [[3], [1]] 1).result.length ≤ 1 ∧
     (EmbeddingGenerator.similarity_search (fun _ => [2]) "q" [[3], [1]] 1).result.Pairwise
       (fun i j => (([[3], [1]] : List (List Int)).map (fun d => dotInt d ((fun _ => [2]) "q"))).getD j 0 ≤
         (([[3], [1]] : List (List Int)).map (fun d => dotInt d ((fun _ => [2]) "q"))).getD i 0) ∧
     ∀ i ∈ (EmbeddingGenerator.similarity_search (fun _ => [2]) "q" [[3], [1]] 1).result,
       i < ([[3], [1]] : List (List Int)).length) :=
  ⟨by decide, C8_similarity_ranking (fun _ => [2]) "q" [[3], [1]] 1 (by decide)⟩
